import Mathlib

/-!
Verification of the per-channel Morse decoding core of `src/main.c`
(`morsed`).  The C code works on IEEE floats; the embedding models the same
arithmetic exactly over `ℚ`.  The Goertzel resonator coefficient
`2·cos(2πf/rate)` is irrational, so `goertzel_power` takes the coefficient as
an abstract rational parameter; all decoding logic downstream of the power
value is embedded verbatim.  Console output lines are modelled as an ordered
event list (`Channel %d symbol:` ↦ `symbolEmitted`, `Channel %d: %c` ↦
`characterDecoded`, `Channel %d: [space]` ↦ `wordBreak`), and every store
into the `symbol[16]` array is recorded by the index it writes, so that
bounds claims about the buffer can be stated.
-/

namespace Morse

/-- Events printed by `channel_process` in `src/main.c`:
`symbolEmitted` is the `Channel %d symbol: %c (%.1f WPM)` line (138–153),
`characterDecoded` the `Channel %d: %c` line (159, 167),
`wordBreak` the `Channel %d: [space]` line (162). -/
inductive Event where
  | symbolEmitted (mark : Char) (wpm : ℚ)
  | characterDecoded (ch : Char)
  | wordBreak
deriving DecidableEq, Repr

/-- The static `MORSE_TABLE` of `src/main.c` lines 22–34, with dot-dash keys
as character lists. -/
def MORSE_TABLE : List (List Char × Char) :=
  [(['.', '-'], 'A'), (['-', '.', '.', '.'], 'B'),
   (['-', '.', '-', '.'], 'C'), (['-', '.', '.'], 'D'),
   (['.'], 'E'), (['.', '.', '-', '.'], 'F'),
   (['-', '-', '.'], 'G'), (['.', '.', '.', '.'], 'H'),
   (['.', '.'], 'I'), (['.', '-', '-', '-'], 'J'),
   (['-', '.', '-'], 'K'), (['.', '-', '.', '.'], 'L'),
   (['-', '-'], 'M'), (['-', '.'], 'N'),
   (['-', '-', '-'], 'O'), (['.', '-', '-', '.'], 'P'),
   (['-', '-', '.', '-'], 'Q'), (['.', '-', '.'], 'R'),
   (['.', '.', '.'], 'S'), (['-'], 'T'),
   (['.', '.', '-'], 'U'), (['.', '.', '.', '-'], 'V'),
   (['.', '-', '-'], 'W'), (['-', '.', '.', '-'], 'X'),
   (['-', '.', '-', '-'], 'Y'), (['-', '-', '.', '.'], 'Z'),
   (['.', '-', '-', '-', '-'], '1'), (['.', '.', '-', '-', '-'], '2'),
   (['.', '.', '.', '-', '-'], '3'), (['.', '.', '.', '.', '-'], '4'),
   (['.', '.', '.', '.', '.'], '5'), (['-', '.', '.', '.', '.'], '6'),
   (['-', '-', '.', '.', '.'], '7'), (['-', '-', '-', '.', '.'], '8'),
   (['-', '-', '-', '-', '.'], '9'), (['-', '-', '-', '-', '-'], '0')]

/-- Embedding of `lookup_morse`, `src/main.c` lines 36–43: exact table lookup, `?` when
no entry matches. -/
def lookup_morse (code : List Char) : Char :=
  match MORSE_TABLE.find? (fun e => e.1 == code) with
  | some e => e.2
  | none => '?'

/-- One Goertzel filter step (body of the loop at `src/main.c` lines 52–56):
state is `(s_prev, s_prev2)`. -/
def goertzel_step (coeff : ℚ) (s : ℚ × ℚ) (x : ℚ) : ℚ × ℚ :=
  (x + coeff * s.1 - s.2, s.1)

/-- Embedding of `goertzel_power`, `src/main.c` lines 46–58, with the resonator
coefficient `2·cos(2πf/rate)` abstracted as the parameter `coeff` (it is
irrational in general).  On an empty block the loop never runs and the
returned power is exactly `0`, also in the C float code. -/
def goertzel_power (coeff : ℚ) (samples : List ℚ) : ℚ :=
  let s := samples.foldl (goertzel_step coeff) (0, 0)
  s.2 * s.2 + s.1 * s.1 - coeff * s.1 * s.2

/-- Embedding of `ChannelState`, `src/main.c` lines 61–76.  `prev` is the binary level
(`true` = tone = C value 1), `symbol`/`sym_len` are merged into one list
(`sym_len = symbol.length`), and the capacity-16 backing array is modelled by
recording write indices (see `ProcOut.writes`).  The `id` and `freq` fields
only tag console output and select the Goertzel coefficient, which is
abstracted, so they are dropped. -/
structure ChannelState where
  sample_rate : ℚ
  avg_power : ℚ
  on_threshold : ℚ
  off_threshold : ℚ
  prev : Bool
  count : ℕ
  symbol : List Char
  dit : ℚ
  dot_dur : ℚ
  dash_dur : ℚ
  wpm : ℚ
deriving DecidableEq, Repr

/-- Capacity of the `char symbol[16]` array (`src/main.c` line 70): a store
to index `i` is in bounds exactly when `i < 16`. -/
def SYMBOL_CAP : ℕ := 16

/-- Embedding of `channel_init`, `src/main.c` lines 84–99 (15 WPM start). -/
def channel_init (sample_rate : ℚ) : ChannelState :=
  { sample_rate := sample_rate
    avg_power := 0
    on_threshold := 9/5
    off_threshold := 6/5
    prev := false
    count := 0
    symbol := []
    dit := (6/5) / 15
    dot_dur := (6/5) / 15
    dash_dur := (6/5) / 15 * 3
    wpm := 15 }

/-- Result of one `channel_process` call: the new state, the events printed,
and the indices of all stores into the `symbol` array performed during the
call (appends at `sym_len` and the terminating NUL at `sym_len`). -/
structure ProcOut where
  state : ChannelState
  events : List Event
  writes : List ℕ
deriving DecidableEq, Repr

/-- Baseline update, `src/main.c` lines 103–108: first power is adopted as
the baseline, later powers feed an EMA with `ALPHA = 0.01`. -/
def update_avg (c : ChannelState) (p : ℚ) : ℚ :=
  if c.avg_power = 0 then p else (1 - 1/100) * c.avg_power + (1/100) * p

/-- Power-to-baseline quotient, `src/main.c` line 110, computed against the
already-updated baseline and zero-guarded. -/
def ratio_of (c : ChannelState) (p : ℚ) : ℚ :=
  if 0 < update_avg c p then p / update_avg c p else 0

/-- Hysteresis decision, `src/main.c` lines 111–115: the new level is tone
above `on_threshold`, silence below `off_threshold`, else the old level. -/
def cur_of (c : ChannelState) (p : ℚ) : Bool :=
  if c.on_threshold < ratio_of c p then true
  else if ratio_of c p < c.off_threshold then false
  else c.prev

/-- Manual-speed override, `src/main.c` lines 131–136: when the manual flag
is set, dit and the duration EMAs are reset from the manual WPM before
classification. -/
def manual_update (ms : Bool) (mwpm : ℚ) (c : ChannelState) : ChannelState :=
  if ms then
    { c with dit := (6/5) / mwpm
             dot_dur := (6/5) / mwpm
             dash_dur := (6/5) / mwpm * 3
             wpm := mwpm }
  else c

/-- Dit value in effect at a transition, i.e. after the manual-speed
override has been applied: `1.2 / manual_wpm` in manual mode, the channel's
tracked dit otherwise. -/
def dit_at (ms : Bool) (mwpm : ℚ) (c : ChannelState) : ℚ :=
  if ms then (6/5) / mwpm else c.dit

/-- End of a tone run, `src/main.c` lines 138–153: append `.` or `-` at
index `sym_len` (no bounds check in the C code), update the matching
duration EMA with `DIT_ALPHA = 0.2` and then dit and WPM unless manual mode
is on, and print the symbol line. -/
def tone_end_result (ms : Bool) (c : ChannelState) (cur : Bool)
    (duration : ℚ) : ProcOut :=
  let mark : Char := if duration < c.dit * 2 then '.' else '-'
  let widx : ℕ := c.symbol.length
  let c1 : ChannelState :=
    if ms then { c with symbol := c.symbol ++ [mark] }
    else if duration < c.dit * 2 then
      { c with symbol := c.symbol ++ [mark]
               dot_dur := (1 - 1/5) * c.dot_dur + (1/5) * duration }
    else
      { c with symbol := c.symbol ++ [mark]
               dash_dur := (1 - 1/5) * c.dash_dur + (1/5) * duration }
  let c2 : ChannelState :=
    if ms then c1
    else
      { c1 with dit := (1/2) * (c1.dot_dur + c1.dash_dur / 3)
                wpm := (6/5) / ((1/2) * (c1.dot_dur + c1.dash_dur / 3)) }
  { state := { c2 with prev := cur, count := 1 }
    events := [Event.symbolEmitted mark c2.wpm]
    writes := [widx] }

/-- End of a silence run, `src/main.c` lines 154–171: at `≥ 7·dit` decode
the pending buffer when non-empty (NUL store at `sym_len`, lookup, clear)
and print a word break; at `≥ 3·dit` decode only; shorter gaps do
nothing. -/
def silence_end_result (c : ChannelState) (cur : Bool)
    (duration : ℚ) : ProcOut :=
  if c.dit * 7 ≤ duration then
    if c.symbol.isEmpty then
      { state := { c with prev := cur, count := 1 }
        events := [Event.wordBreak]
        writes := [] }
    else
      { state := { c with symbol := [], prev := cur, count := 1 }
        events := [Event.characterDecoded (lookup_morse c.symbol),
                   Event.wordBreak]
        writes := [c.symbol.length] }
  else if c.dit * 3 ≤ duration then
    if c.symbol.isEmpty then
      { state := { c with prev := cur, count := 1 }
        events := []
        writes := [] }
    else
      { state := { c with symbol := [], prev := cur, count := 1 }
        events := [Event.characterDecoded (lookup_morse c.symbol)]
        writes := [c.symbol.length] }
  else
    { state := { c with prev := cur, count := 1 }
      events := []
      writes := [] }

/-- Level-flip handling of `channel_process`, `src/main.c` lines 128–174:
compute the duration of the just-ended run, apply the manual-speed override,
dispatch on which level ended, and restart the run counter at the new
level. -/
def transition_result (ms : Bool) (mwpm : ℚ) (c : ChannelState)
    (cur : Bool) (len : ℕ) : ProcOut :=
  let duration : ℚ := (c.count : ℚ) * ((len : ℚ) / c.sample_rate)
  let c1 := manual_update ms mwpm c
  if c1.prev then tone_end_result ms c1 cur duration
  else silence_end_result c1 cur duration

/-- Embedding of `channel_process`, `src/main.c` lines 101–175, with the block's
Goertzel power `p` passed in (the call at line 104 computes it from the
samples; `channel_process_blk` below composes the two) and `len` the block
length in samples.  `ms`/`mwpm` are the globals `manual_speed_mode` and
`manual_wpm`. -/
def channel_process (ms : Bool) (mwpm : ℚ) (c : ChannelState) (p : ℚ)
    (len : ℕ) : ProcOut :=
  if c.count = 0 then
    { state :=
        { c with avg_power := update_avg c p, prev := cur_of c p, count := 1 }
      events := []
      writes := [] }
  else if cur_of c p = c.prev then
    { state := { c with avg_power := update_avg c p, count := c.count + 1 }
      events := []
      writes := [] }
  else
    transition_result ms mwpm { c with avg_power := update_avg c p }
      (cur_of c p) len

/-- Composition of `goertzel_power` and `channel_process` as called on a sample block (`src/main.c` line 104):
power comes from the Goertzel filter over the block. -/
def channel_process_blk (ms : Bool) (mwpm : ℚ) (coeff : ℚ)
    (c : ChannelState) (samples : List ℚ) : ProcOut :=
  channel_process ms mwpm c (goertzel_power coeff samples) samples.length

/-- The per-channel part of the capture loop of `main`, `src/main.c` lines
306–373: each arriving block is fed to `channel_process`; events and symbol
stores accumulate in arrival order.  After `keep_running` turns false the
program only closes devices and frees memory (lines 375–382) — no further
call touches the channel state, so the value of `run_blocks` on the full
block list is the final state and the complete output of a session. -/
def run_blocks (ms : Bool) (mwpm : ℚ) (len : ℕ) :
    ChannelState → List ℚ → ChannelState × List Event × List ℕ
  | c, [] => (c, [], [])
  | c, p :: ps =>
    let r := channel_process ms mwpm c p len
    let rest := run_blocks ms mwpm len r.state ps
    (rest.1, r.events ++ rest.2.1, r.writes ++ rest.2.2)

/-- Boolean trace predicate: every block of the list, processed from the
given state onward, has its power-to-baseline quotient strictly between the
channel's off- and on-thresholds. -/
def between_trace (ms : Bool) (mwpm : ℚ) (len : ℕ) :
    ChannelState → List ℚ → Bool
  | _, [] => true
  | c, p :: ps =>
    decide (c.off_threshold < ratio_of c p)
      && decide (ratio_of c p < c.on_threshold)
      && between_trace ms mwpm len (channel_process ms mwpm c p len).state ps

/-- Positivity of the three timing fields of a channel. -/
def pos_inv (c : ChannelState) : Prop :=
  0 < c.dit ∧ 0 < c.dot_dur ∧ 0 < c.dash_dur

/-- Initial value of the global `manual_wpm` (`src/main.c` line 79). -/
def manual_wpm_init : ℚ := 15

/-- Manual-WPM decrement on the `-` key, `src/main.c` lines 324–327: the
step is ignored unless the value is above 5. -/
def wpm_minus (w : ℚ) : ℚ := if 5 < w then w - 1 else w

/-- Manual-WPM increment on the `=` key, `src/main.c` lines 328–330. -/
def wpm_plus (w : ℚ) : ℚ := w + 1

/-- Category tag of an event, used to state that distinct event kinds fire
in one transition. -/
def event_cat : Event → ℕ
  | Event.symbolEmitted _ _ => 0
  | Event.characterDecoded _ => 1
  | Event.wordBreak => 2

/-- Recognizer for `characterDecoded` events. -/
def is_character_decoded : Event → Bool
  | Event.characterDecoded _ => true
  | _ => false

/-- Channel state one block into a tone run (used to witness tone-end
transitions): baseline settled at 1, so a block power of 0 flips the level
to silence. -/
def wit_tone : ChannelState :=
  { channel_init 1 with avg_power := 1, prev := true, count := 1 }

/-- Channel state one block into a silence run with a pending `.` (used to
witness silence-end transitions): a block power of 10 flips the level to
tone. -/
def wit_silence : ChannelState :=
  { channel_init 1 with avg_power := 1, count := 1, symbol := ['.'] }

/-- Channel state one block into a silence run with an empty buffer. -/
def wit_hold : ChannelState :=
  { channel_init 1 with avg_power := 1, count := 1 }

/-- Block-power sequence that makes the level flip on every block after the
first: one settling block, then seventeen loud/quiet pairs.  Each pair ends
one one-block tone run, appending one mark, while every one-block silence
gap stays far below `3·dit`, so the symbol buffer never drains. -/
def c6_powers : List ℚ := 100 :: (List.replicate 17 [(100000 : ℚ), 0]).flatten

/- ------------------------------------------------------------------ -/
/- Helper lemmas                                                      -/
/- ------------------------------------------------------------------ -/

theorem manual_update_prev (ms : Bool) (mwpm : ℚ) (c : ChannelState) :
    (manual_update ms mwpm c).prev = c.prev := by
  unfold manual_update; split <;> rfl

theorem manual_update_dit (ms : Bool) (mwpm : ℚ) (c : ChannelState) :
    (manual_update ms mwpm c).dit = dit_at ms mwpm c := by
  unfold manual_update dit_at; split <;> simp_all

theorem manual_update_symbol (ms : Bool) (mwpm : ℚ) (c : ChannelState) :
    (manual_update ms mwpm c).symbol = c.symbol := by
  unfold manual_update; split <;> rfl

theorem manual_update_count (ms : Bool) (mwpm : ℚ) (c : ChannelState) :
    (manual_update ms mwpm c).count = c.count := by
  unfold manual_update; split <;> rfl

theorem manual_update_sample_rate (ms : Bool) (mwpm : ℚ) (c : ChannelState) :
    (manual_update ms mwpm c).sample_rate = c.sample_rate := by
  unfold manual_update; split <;> rfl

theorem transition_state_prev (ms : Bool) (mwpm : ℚ) (c : ChannelState)
    (cur : Bool) (len : ℕ) :
    (transition_result ms mwpm c cur len).state.prev = cur := by
  unfold transition_result tone_end_result silence_end_result
  dsimp only
  split_ifs <;> rfl

theorem process_state_prev (ms : Bool) (mwpm : ℚ) (c : ChannelState) (p : ℚ)
    (len : ℕ) :
    (channel_process ms mwpm c p len).state.prev = cur_of c p := by
  unfold channel_process
  split_ifs with h1 h2
  · rfl
  · exact h2.symm
  · exact transition_state_prev ms mwpm _ _ len

theorem channel_process_transition (ms : Bool) (mwpm : ℚ) (c : ChannelState)
    (p : ℚ) (len : ℕ) (hc : c.count ≠ 0) (hne : cur_of c p ≠ c.prev) :
    channel_process ms mwpm c p len
      = transition_result ms mwpm { c with avg_power := update_avg c p }
          (cur_of c p) len := by
  unfold channel_process
  rw [if_neg hc, if_neg hne]

theorem cur_of_eq_prev_of_between (c : ChannelState) (p : ℚ)
    (h1 : c.off_threshold < ratio_of c p)
    (h2 : ratio_of c p < c.on_threshold) :
    cur_of c p = c.prev := by
  unfold cur_of
  rw [if_neg (asymm h2), if_neg (asymm h1)]

theorem run_blocks_prev_of_between (ms : Bool) (mwpm : ℚ) (len : ℕ) :
    ∀ (ps : List ℚ) (c : ChannelState),
      between_trace ms mwpm len c ps = true →
      (run_blocks ms mwpm len c ps).1.prev = c.prev := by
  intro ps
  induction ps with
  | nil => intro c _; rfl
  | cons p ps ih =>
    intro c h
    unfold between_trace at h
    simp only [Bool.and_eq_true, decide_eq_true_eq] at h
    obtain ⟨⟨h1, h2⟩, h3⟩ := h
    unfold run_blocks
    simp only []
    rw [ih _ h3, process_state_prev, cur_of_eq_prev_of_between c p h1 h2]

theorem tone_end_events (ms : Bool) (c : ChannelState) (cur : Bool) (d : ℚ) :
    ∃ w : ℚ,
      (tone_end_result ms c cur d).events
        = [Event.symbolEmitted (if d < c.dit * 2 then '.' else '-') w]
      ∧ (tone_end_result ms c cur d).state.symbol
        = c.symbol ++ [if d < c.dit * 2 then '.' else '-'] := by
  unfold tone_end_result
  by_cases hd : d < c.dit * 2
  · simp only [if_pos hd]
    cases ms
    · exact ⟨_, rfl, rfl⟩
    · exact ⟨_, rfl, rfl⟩
  · simp only [if_neg hd]
    cases ms
    · exact ⟨_, rfl, rfl⟩
    · exact ⟨_, rfl, rfl⟩

theorem silence_end_events (c : ChannelState) (cur : Bool) (d : ℚ)
    (hdit : 0 < c.dit) :
    (d < c.dit * 3 →
      (silence_end_result c cur d).events = []
      ∧ (silence_end_result c cur d).state.symbol = c.symbol)
    ∧ (c.dit * 3 ≤ d → d < c.dit * 7 → c.symbol ≠ [] →
      (silence_end_result c cur d).events
          = [Event.characterDecoded (lookup_morse c.symbol)]
      ∧ (silence_end_result c cur d).state.symbol = [])
    ∧ (c.dit * 3 ≤ d → d < c.dit * 7 → c.symbol = [] →
      (silence_end_result c cur d).events = []
      ∧ (silence_end_result c cur d).state.symbol = c.symbol)
    ∧ (c.dit * 7 ≤ d → c.symbol ≠ [] →
      (silence_end_result c cur d).events
          = [Event.characterDecoded (lookup_morse c.symbol), Event.wordBreak]
      ∧ (silence_end_result c cur d).state.symbol = [])
    ∧ (c.dit * 7 ≤ d → c.symbol = [] →
      (silence_end_result c cur d).events = [Event.wordBreak]
      ∧ (silence_end_result c cur d).state.symbol = c.symbol) := by
  unfold silence_end_result
  refine ⟨?_, ?_, ?_, ?_, ?_⟩
  · intro h3
    rw [if_neg (by intro h7; linarith), if_neg (by intro h3le; linarith)]
    exact ⟨rfl, rfl⟩
  · intro h3 h7 hsym
    rw [if_neg (by intro h7le; linarith), if_pos h3,
        if_neg (by simpa using hsym)]
    exact ⟨rfl, rfl⟩
  · intro h3 h7 hsym
    rw [if_neg (by intro h7le; linarith), if_pos h3,
        if_pos (by simpa using hsym)]
    exact ⟨rfl, rfl⟩
  · intro h7 hsym
    rw [if_pos h7, if_neg (by simpa using hsym)]
    exact ⟨rfl, rfl⟩
  · intro h7 hsym
    rw [if_pos h7, if_pos (by simpa using hsym)]
    exact ⟨rfl, rfl⟩

/- ------------------------------------------------------------------ -/
/- Claim theorems                                                     -/
/- ------------------------------------------------------------------ -/

/-- Claim C1: when a tone run ends (previous level tone, new level silence,
past the very first block), exactly one mark is appended to the symbol
buffer and exactly one `SymbolEmitted` event fires; the mark is `.` when
the run duration is strictly below `2·dit` (with the dit in effect at the
transition) and `-` otherwise, so a duration of exactly `2·dit` gives
`-`. -/
theorem tone_end_emits_one_symbol (ms : Bool) (mwpm : ℚ) (c : ChannelState)
    (p : ℚ) (len : ℕ)
    (hc : c.count ≠ 0) (hprev : c.prev = true) (hcur : cur_of c p = false) :
    ∃ w : ℚ,
      (channel_process ms mwpm c p len).events
        = [Event.symbolEmitted
            (if (c.count : ℚ) * ((len : ℚ) / c.sample_rate)
                < dit_at ms mwpm c * 2 then '.' else '-') w]
      ∧ (channel_process ms mwpm c p len).state.symbol
        = c.symbol
          ++ [if (c.count : ℚ) * ((len : ℚ) / c.sample_rate)
                < dit_at ms mwpm c * 2 then '.' else '-'] := by
  have hne : cur_of c p ≠ c.prev := by rw [hprev, hcur]; simp
  rw [channel_process_transition ms mwpm c p len hc hne]
  unfold transition_result
  dsimp only
  rw [manual_update_prev]
  dsimp only
  rw [if_pos hprev]
  obtain ⟨w, he, hs⟩ :=
    tone_end_events ms
      (manual_update ms mwpm { c with avg_power := update_avg c p })
      (cur_of c p) ((c.count : ℚ) * ((len : ℚ) / c.sample_rate))
  refine ⟨w, ?_, ?_⟩
  · rw [he, manual_update_dit]
    unfold dit_at
    cases ms <;> rfl
  · rw [hs, manual_update_dit, manual_update_symbol]
    unfold dit_at
    cases ms <;> rfl

/-- Witness for C1 at a concrete tone-end transition. -/
theorem tone_end_emits_one_symbol_at :
    ∃ w : ℚ,
      (channel_process false 15 wit_tone 0 1).events
        = [Event.symbolEmitted
            (if ((wit_tone.count : ℕ) : ℚ) * (((1 : ℕ) : ℚ) / wit_tone.sample_rate)
                < dit_at false 15 wit_tone * 2 then '.' else '-') w]
      ∧ (channel_process false 15 wit_tone 0 1).state.symbol
        = wit_tone.symbol
          ++ [if ((wit_tone.count : ℕ) : ℚ) * (((1 : ℕ) : ℚ) / wit_tone.sample_rate)
                < dit_at false 15 wit_tone * 2 then '.' else '-'] :=
  tone_end_emits_one_symbol false 15 wit_tone 0 1
    (by decide) (by decide) (by decide!)

/-- Claim C2: when a silence run ends (previous level silence, new level
tone, past the very first block, with the transition dit positive as the
program maintains), a gap below `3·dit` does nothing; a gap in
`[3·dit, 7·dit)` decodes the pending buffer exactly when it is non-empty,
emitting one `CharacterDecoded` and clearing it; a gap of at least `7·dit`
does the same and additionally emits `WordBreak`; an empty buffer never
produces a `CharacterDecoded`. -/
theorem silence_end_gap_classification (ms : Bool) (mwpm : ℚ)
    (c : ChannelState) (p : ℚ) (len : ℕ)
    (hc : c.count ≠ 0) (hprev : c.prev = false) (hcur : cur_of c p = true)
    (hdit : 0 < dit_at ms mwpm c) :
    ((c.count : ℚ) * ((len : ℚ) / c.sample_rate) < dit_at ms mwpm c * 3 →
      (channel_process ms mwpm c p len).events = []
      ∧ (channel_process ms mwpm c p len).state.symbol = c.symbol)
    ∧ (dit_at ms mwpm c * 3 ≤ (c.count : ℚ) * ((len : ℚ) / c.sample_rate) →
        (c.count : ℚ) * ((len : ℚ) / c.sample_rate) < dit_at ms mwpm c * 7 →
        c.symbol ≠ [] →
      (channel_process ms mwpm c p len).events
          = [Event.characterDecoded (lookup_morse c.symbol)]
      ∧ (channel_process ms mwpm c p len).state.symbol = [])
    ∧ (dit_at ms mwpm c * 3 ≤ (c.count : ℚ) * ((len : ℚ) / c.sample_rate) →
        (c.count : ℚ) * ((len : ℚ) / c.sample_rate) < dit_at ms mwpm c * 7 →
        c.symbol = [] →
      (channel_process ms mwpm c p len).events = []
      ∧ (channel_process ms mwpm c p len).state.symbol = c.symbol)
    ∧ (dit_at ms mwpm c * 7 ≤ (c.count : ℚ) * ((len : ℚ) / c.sample_rate) →
        c.symbol ≠ [] →
      (channel_process ms mwpm c p len).events
          = [Event.characterDecoded (lookup_morse c.symbol), Event.wordBreak]
      ∧ (channel_process ms mwpm c p len).state.symbol = [])
    ∧ (dit_at ms mwpm c * 7 ≤ (c.count : ℚ) * ((len : ℚ) / c.sample_rate) →
        c.symbol = [] →
      (channel_process ms mwpm c p len).events = [Event.wordBreak]
      ∧ (channel_process ms mwpm c p len).state.symbol = c.symbol)
    ∧ (c.symbol = [] →
        ∀ ch : Char,
          Event.characterDecoded ch ∉ (channel_process ms mwpm c p len).events) := by
  have hne : cur_of c p ≠ c.prev := by rw [hprev, hcur]; simp
  rw [channel_process_transition ms mwpm c p len hc hne]
  unfold transition_result
  dsimp only
  rw [manual_update_prev]
  dsimp only
  rw [if_neg (by rw [hprev]; simp)]
  have hsy := manual_update_symbol ms mwpm { c with avg_power := update_avg c p }
  have hdi := manual_update_dit ms mwpm { c with avg_power := update_avg c p }
  have hdi' : (manual_update ms mwpm { c with avg_power := update_avg c p }).dit
      = dit_at ms mwpm c := by
    rw [hdi]; unfold dit_at; cases ms <;> rfl
  have hsy' : (manual_update ms mwpm { c with avg_power := update_avg c p }).symbol
      = c.symbol := hsy
  have hpos : 0 < (manual_update ms mwpm { c with avg_power := update_avg c p }).dit := by
    rw [hdi']; exact hdit
  obtain ⟨e1, e2, e3, e4, e5⟩ :=
    silence_end_events
      (manual_update ms mwpm { c with avg_power := update_avg c p })
      (cur_of c p) ((c.count : ℚ) * ((len : ℚ) / c.sample_rate)) hpos
  rw [hdi', hsy'] at e1 e2 e3 e4 e5
  refine ⟨e1, e2, e3, e4, e5, ?_⟩
  intro hsym ch
  by_cases h7 : dit_at ms mwpm c * 7 ≤ (c.count : ℚ) * ((len : ℚ) / c.sample_rate)
  · rw [(e5 h7 hsym).1]; simp
  · by_cases h3 : dit_at ms mwpm c * 3 ≤ (c.count : ℚ) * ((len : ℚ) / c.sample_rate)
    · rw [(e3 h3 (by linarith [not_le.mp h7]) hsym).1]; simp
    · rw [(e1 (by linarith [not_le.mp h3])).1]; simp

/-- Witness for C2 at a concrete silence-end transition (a gap of one
second against dit `0.08`, i.e. at least `7·dit`, with buffer `.`). -/
theorem silence_end_gap_classification_at :
    (channel_process false 15 wit_silence 10 1).events
      = [Event.characterDecoded (lookup_morse wit_silence.symbol),
         Event.wordBreak]
    ∧ (channel_process false 15 wit_silence 10 1).state.symbol = [] :=
  (silence_end_gap_classification false 15 wit_silence 10 1
    (by decide) (by decide) (by decide!) (by decide!)).2.2.2.1
    (by decide!) (by decide)

/-- Claim C3: past the first block, a run of blocks whose power-to-baseline
quotients stay strictly between the off- and on-thresholds never changes
the level; the level flips silence-to-tone only when the quotient strictly
exceeds the on-threshold, tone-to-silence only when it falls strictly below
the off-threshold, and any intermediate quotient keeps the previous
level. -/
theorem hysteresis_level_stability (ms : Bool) (mwpm : ℚ) (len : ℕ) :
    (∀ (c : ChannelState) (ps : List ℚ), 1 ≤ c.count →
        between_trace ms mwpm len c ps = true →
        (run_blocks ms mwpm len c ps).1.prev = c.prev)
    ∧ (∀ (c : ChannelState) (p : ℚ), 1 ≤ c.count → c.prev = false →
        (channel_process ms mwpm c p len).state.prev = true →
        c.on_threshold < ratio_of c p)
    ∧ (∀ (c : ChannelState) (p : ℚ), 1 ≤ c.count → c.prev = true →
        (channel_process ms mwpm c p len).state.prev = false →
        ratio_of c p < c.off_threshold)
    ∧ (∀ (c : ChannelState) (p : ℚ),
        ¬ c.on_threshold < ratio_of c p → ¬ ratio_of c p < c.off_threshold →
        (channel_process ms mwpm c p len).state.prev = c.prev) := by
  refine ⟨fun c ps _ h => run_blocks_prev_of_between ms mwpm len ps c h,
    ?_, ?_, ?_⟩
  · intro c p _ hprev h
    rw [process_state_prev] at h
    unfold cur_of at h
    by_contra hno
    rw [if_neg hno] at h
    by_cases h2 : ratio_of c p < c.off_threshold
    · rw [if_pos h2] at h; exact absurd h (by simp)
    · rw [if_neg h2, hprev] at h; exact absurd h (by simp)
  · intro c p _ hprev h
    rw [process_state_prev] at h
    unfold cur_of at h
    by_contra hno
    by_cases h1 : c.on_threshold < ratio_of c p
    · rw [if_pos h1] at h; exact absurd h (by simp)
    · rw [if_neg h1, if_neg hno, hprev] at h; exact absurd h (by simp)
  · intro c p h1 h2
    rw [process_state_prev]
    unfold cur_of
    rw [if_neg h1, if_neg h2]

/-- Witness for C3: a one-block trace with quotient about 1.49 (strictly
between 1.2 and 1.8) leaves the level unchanged. -/
theorem hysteresis_level_stability_at :
    1 ≤ wit_hold.count
    ∧ between_trace false 15 1 wit_hold [3/2] = true
    ∧ (run_blocks false 15 1 wit_hold [3/2]).1.prev = wit_hold.prev :=
  ⟨by decide, by decide!,
    (hysteresis_level_stability false 15 1).1 wit_hold [3/2]
      (by decide) (by decide!)⟩

theorem tone_end_auto_update (c : ChannelState) (cur : Bool) (d : ℚ) :
    (d < c.dit * 2 →
      (tone_end_result false c cur d).state.dot_dur
          = (1 - 1/5) * c.dot_dur + (1/5) * d
      ∧ (tone_end_result false c cur d).state.dash_dur = c.dash_dur)
    ∧ (¬ d < c.dit * 2 →
      (tone_end_result false c cur d).state.dash_dur
          = (1 - 1/5) * c.dash_dur + (1/5) * d
      ∧ (tone_end_result false c cur d).state.dot_dur = c.dot_dur)
    ∧ (tone_end_result false c cur d).state.dit
        = (1/2) * ((tone_end_result false c cur d).state.dot_dur
            + (tone_end_result false c cur d).state.dash_dur / 3)
    ∧ (tone_end_result false c cur d).state.wpm
        = (6/5) / (tone_end_result false c cur d).state.dit := by
  unfold tone_end_result
  by_cases hd : d < c.dit * 2
  · simp only [if_pos hd]
    exact ⟨fun _ => ⟨rfl, rfl⟩, fun h => absurd hd h, rfl, rfl⟩
  · simp only [if_neg hd]
    exact ⟨fun h => absurd h hd, fun _ => ⟨rfl, rfl⟩, rfl, rfl⟩

/-- Claim C4: in automatic mode, a tone run classified as a dot updates the
dot-duration EMA toward the observed duration with factor 0.2 (the dash EMA
untouched), a dash updates the dash EMA likewise, and afterwards the new
dit is the average of the dot EMA and one third of the dash EMA, with WPM
equal to 1.2 divided by the new dit. -/
theorem auto_speed_ema_update (mwpm : ℚ) (c : ChannelState) (p : ℚ)
    (len : ℕ)
    (hc : c.count ≠ 0) (hprev : c.prev = true) (hcur : cur_of c p = false) :
    ((c.count : ℚ) * ((len : ℚ) / c.sample_rate) < c.dit * 2 →
      (channel_process false mwpm c p len).state.dot_dur
          = (1 - 1/5) * c.dot_dur
            + (1/5) * ((c.count : ℚ) * ((len : ℚ) / c.sample_rate))
      ∧ (channel_process false mwpm c p len).state.dash_dur = c.dash_dur)
    ∧ (¬ (c.count : ℚ) * ((len : ℚ) / c.sample_rate) < c.dit * 2 →
      (channel_process false mwpm c p len).state.dash_dur
          = (1 - 1/5) * c.dash_dur
            + (1/5) * ((c.count : ℚ) * ((len : ℚ) / c.sample_rate))
      ∧ (channel_process false mwpm c p len).state.dot_dur = c.dot_dur)
    ∧ (channel_process false mwpm c p len).state.dit
        = (1/2) * ((channel_process false mwpm c p len).state.dot_dur
            + (channel_process false mwpm c p len).state.dash_dur / 3)
    ∧ (channel_process false mwpm c p len).state.wpm
        = (6/5) / (channel_process false mwpm c p len).state.dit := by
  have hne : cur_of c p ≠ c.prev := by rw [hprev, hcur]; simp
  rw [channel_process_transition false mwpm c p len hc hne]
  have he : transition_result false mwpm { c with avg_power := update_avg c p }
        (cur_of c p) len
      = tone_end_result false { c with avg_power := update_avg c p }
          (cur_of c p) ((c.count : ℚ) * ((len : ℚ) / c.sample_rate)) := by
    unfold transition_result
    dsimp only
    rw [manual_update_prev]
    dsimp only
    rw [if_pos hprev]
    rfl
  rw [he]
  exact tone_end_auto_update { c with avg_power := update_avg c p }
    (cur_of c p) ((c.count : ℚ) * ((len : ℚ) / c.sample_rate))

/-- Witness for C4: a one-block tone run of duration 1 with dit 0.08 is a
dash; the dash EMA moves toward 1 and dit/WPM are recomputed from the
EMAs. -/
theorem auto_speed_ema_update_at :
    ((channel_process false 15 wit_tone 0 1).state.dash_dur
        = (1 - 1/5) * wit_tone.dash_dur
          + (1/5) * ((wit_tone.count : ℚ) * (((1 : ℕ) : ℚ) / wit_tone.sample_rate))
      ∧ (channel_process false 15 wit_tone 0 1).state.dot_dur
        = wit_tone.dot_dur)
    ∧ (channel_process false 15 wit_tone 0 1).state.dit
        = (1/2) * ((channel_process false 15 wit_tone 0 1).state.dot_dur
            + (channel_process false 15 wit_tone 0 1).state.dash_dur / 3)
    ∧ (channel_process false 15 wit_tone 0 1).state.wpm
        = (6/5) / (channel_process false 15 wit_tone 0 1).state.dit :=
  ⟨(auto_speed_ema_update 15 wit_tone 0 1
      (by decide) (by decide) (by decide!)).2.1 (by decide!),
   (auto_speed_ema_update 15 wit_tone 0 1
      (by decide) (by decide) (by decide!)).2.2.1,
   (auto_speed_ema_update 15 wit_tone 0 1
      (by decide) (by decide) (by decide!)).2.2.2⟩

/-- Claim C5: with manual mode active, every transition leaves dit at
`1.2 / manual_wpm` and WPM at the manual value, the duration EMAs are reset
from the manual dit rather than from observed timing, and a tone run is
classified against the manual dit — none of the four fields depends on the
observed duration. -/
theorem manual_speed_freeze (mwpm : ℚ) (c : ChannelState) (p : ℚ) (len : ℕ)
    (hc : c.count ≠ 0) (hne : cur_of c p ≠ c.prev) :
    (channel_process true mwpm c p len).state.dit = (6/5) / mwpm
    ∧ (channel_process true mwpm c p len).state.wpm = mwpm
    ∧ (channel_process true mwpm c p len).state.dot_dur = (6/5) / mwpm
    ∧ (channel_process true mwpm c p len).state.dash_dur = (6/5) / mwpm * 3
    ∧ (c.prev = true →
        ∃ w, (channel_process true mwpm c p len).events
          = [Event.symbolEmitted
              (if (c.count : ℚ) * ((len : ℚ) / c.sample_rate)
                  < (6/5) / mwpm * 2 then '.' else '-') w]) := by
  rw [channel_process_transition true mwpm c p len hc hne]
  unfold transition_result
  dsimp only
  rw [manual_update_prev]
  dsimp only
  by_cases hprev : c.prev = true
  · rw [if_pos hprev]
    exact ⟨rfl, rfl, rfl, rfl, fun _ => ⟨_, rfl⟩⟩
  · rw [if_neg hprev]
    unfold silence_end_result
    split_ifs <;> exact ⟨rfl, rfl, rfl, rfl, fun h => absurd h hprev⟩

/-- Witness for C5 at manual WPM 20: dit is frozen at exactly `1.2/20`. -/
theorem manual_speed_freeze_at :
    (channel_process true 20 wit_tone 0 1).state.dit = (6/5) / 20
    ∧ (channel_process true 20 wit_tone 0 1).state.wpm = 20 :=
  ⟨(manual_speed_freeze 20 wit_tone 0 1 (by decide) (by decide!)).1,
   (manual_speed_freeze 20 wit_tone 0 1 (by decide) (by decide!)).2.1⟩

/-- Claim C6 is refuted by the code: `channel_process` appends marks with
`c->symbol[c->sym_len++]` and never checks `sym_len` against the size 16 of
the array, and no decode-as-unknown flush exists.  Starting from
`channel_init`, the 35-block stream `c6_powers` (one settling block, then
17 loud/quiet pairs whose one-block gaps stay far below `3·dit`) performs a
store at index 16, which is not below the capacity — an out-of-bounds
write. -/
theorem symbol_buffer_overflow_reachable :
    16 ∈ (run_blocks false 15 1024 (channel_init 44100) c6_powers).2.2
    ∧ ¬ 16 < SYMBOL_CAP :=
  ⟨by decide!, by decide⟩

/-- Claim C7 is refuted by the code: `channel_process` has no zero-length
guard.  An empty block has Goertzel power exactly 0, which decays the
baseline EMA and, on a channel one block into a tone run, reads as a
below-off-threshold quotient: the tone run ends with duration 0, a `.` is
appended and a `SymbolEmitted` fires — the state changes and an event is
emitted. -/
theorem zero_length_block_not_noop :
    (channel_process false 15 wit_tone (goertzel_power 1 []) 0).state
      ≠ wit_tone
    ∧ (channel_process false 15 wit_tone (goertzel_power 1 []) 0).events
      ≠ [] :=
  ⟨by decide!, by decide!⟩

/-- Claim C8 is refuted by the code: after `keep_running` goes false the
main loop only releases resources, so nothing flushes the in-progress run.
The three-block stream silence/tone/silence leaves the channel with the
pending symbol `.` in its buffer at end of stream, and the whole session
output contains no `CharacterDecoded` — the trailing character is lost. -/
theorem end_of_stream_no_flush :
    (run_blocks false 15 1024 (channel_init 44100) [100, 1000, 0]).1.symbol
      = ['.']
    ∧ (run_blocks false 15 1024 (channel_init 44100)
        [100, 1000, 0]).2.1.filter is_character_decoded = [] :=
  ⟨by decide!, by decide!⟩

/-- Counterexample to claim C9: a `≥ 7·dit` silence ending with a non-empty
symbol buffer emits a `CharacterDecoded` (category 1) and a `WordBreak`
(category 2) in the same transition — two distinct event categories. -/
theorem two_event_categories_one_transition :
    (channel_process false 15 wit_silence 10 1).events.map event_cat
      = [1, 2]
    ∧ (1 : ℕ) ≠ 2 :=
  ⟨by decide!, by decide⟩

theorem silence_end_events_shape (c : ChannelState) (cur : Bool) (d : ℚ) :
    (silence_end_result c cur d).events = []
    ∨ (∃ ch, (silence_end_result c cur d).events
        = [Event.characterDecoded ch])
    ∨ (silence_end_result c cur d).events = [Event.wordBreak]
    ∨ (∃ ch, (silence_end_result c cur d).events
        = [Event.characterDecoded ch, Event.wordBreak]) := by
  unfold silence_end_result
  split_ifs <;>
    first
      | exact Or.inl rfl
      | exact Or.inr (Or.inl ⟨_, rfl⟩)
      | exact Or.inr (Or.inr (Or.inl rfl))
      | exact Or.inr (Or.inr (Or.inr ⟨_, rfl⟩))

/-- Claim C9 as amended: a transition emits one of five event shapes —
nothing, a single `SymbolEmitted`, a single `CharacterDecoded`, a single
`WordBreak`, or `CharacterDecoded` followed by `WordBreak`; in particular
`SymbolEmitted` never shares a transition with another category, and the
only two-category transition is the word-gap decode. -/
theorem event_categories_per_transition (ms : Bool) (mwpm : ℚ)
    (c : ChannelState) (p : ℚ) (len : ℕ) :
    (channel_process ms mwpm c p len).events = []
    ∨ (∃ m w, (channel_process ms mwpm c p len).events
        = [Event.symbolEmitted m w])
    ∨ (∃ ch, (channel_process ms mwpm c p len).events
        = [Event.characterDecoded ch])
    ∨ (channel_process ms mwpm c p len).events = [Event.wordBreak]
    ∨ (∃ ch, (channel_process ms mwpm c p len).events
        = [Event.characterDecoded ch, Event.wordBreak]) := by
  unfold channel_process
  split_ifs with h1 h2
  · exact Or.inl rfl
  · exact Or.inl rfl
  · unfold transition_result
    dsimp only
    split_ifs with hp
    · obtain ⟨w, he, _⟩ :=
        tone_end_events ms
          (manual_update ms mwpm { c with avg_power := update_avg c p })
          (cur_of c p) ((c.count : ℚ) * ((len : ℚ) / c.sample_rate))
      exact Or.inr (Or.inl ⟨_, w, he⟩)
    · rcases silence_end_events_shape
          (manual_update ms mwpm { c with avg_power := update_avg c p })
          (cur_of c p) ((c.count : ℚ) * ((len : ℚ) / c.sample_rate)) with
        h | ⟨ch, h⟩ | h | ⟨ch, h⟩
      · exact Or.inl h
      · exact Or.inr (Or.inr (Or.inl ⟨ch, h⟩))
      · exact Or.inr (Or.inr (Or.inr (Or.inl h)))
      · exact Or.inr (Or.inr (Or.inr (Or.inr ⟨ch, h⟩)))

theorem manual_update_pos (ms : Bool) (mwpm : ℚ) (c : ChannelState)
    (hm : 0 < mwpm) (h : pos_inv c) : pos_inv (manual_update ms mwpm c) := by
  unfold manual_update
  split_ifs
  · refine ⟨?_, ?_, ?_⟩ <;> dsimp only <;> positivity
  · exact h

theorem tone_end_pos (ms : Bool) (c : ChannelState) (cur : Bool) (d : ℚ)
    (h : pos_inv c) (hd : 0 < d) : pos_inv (tone_end_result ms c cur d).state := by
  obtain ⟨h1, h2, h3⟩ := h
  cases ms
  · unfold tone_end_result
    by_cases hdd : d < c.dit * 2
    · simp only [if_pos hdd]
      refine ⟨?_, ?_, ?_⟩
      · show 0 < 1/2 * ((1 - 1/5) * c.dot_dur + 1/5 * d + c.dash_dur / 3)
        linarith
      · show 0 < (1 - 1/5) * c.dot_dur + 1/5 * d
        linarith
      · show 0 < c.dash_dur
        exact h3
    · simp only [if_neg hdd]
      refine ⟨?_, ?_, ?_⟩
      · show 0 < 1/2 * (c.dot_dur + ((1 - 1/5) * c.dash_dur + 1/5 * d) / 3)
        linarith
      · show 0 < c.dot_dur
        exact h2
      · show 0 < (1 - 1/5) * c.dash_dur + 1/5 * d
        linarith
  · exact ⟨h1, h2, h3⟩

theorem silence_end_pos (c : ChannelState) (cur : Bool) (d : ℚ)
    (h : pos_inv c) : pos_inv (silence_end_result c cur d).state := by
  obtain ⟨h1, h2, h3⟩ := h
  unfold silence_end_result
  split_ifs <;> exact ⟨h1, h2, h3⟩

/-- Claim C10: dit is strictly positive at every moment of a session — it
is positive right after `channel_init`, `channel_process` preserves
positivity of dit and of both duration EMAs whenever the block is non-empty,
the sample rate is positive and the manual WPM is positive, and the
program's own manual-WPM updates preserve positivity from the positive
initial value 15 (the `-` key ignores a step once the value is at the floor
5, so a non-positive manual WPM can never be applied and the manual dit
`1.2 / manual_wpm` stays positive). -/
theorem dit_always_positive :
    (∀ sr : ℚ, pos_inv (channel_init sr))
    ∧ (∀ (ms : Bool) (mwpm : ℚ) (c : ChannelState) (p : ℚ) (len : ℕ),
        0 < mwpm → len ≠ 0 → 0 < c.sample_rate → pos_inv c →
        pos_inv (channel_process ms mwpm c p len).state)
    ∧ (∀ w : ℚ, 0 < w → 0 < wpm_minus w ∧ 0 < wpm_plus w)
    ∧ 0 < manual_wpm_init := by
  refine ⟨?_, ?_, ?_, ?_⟩
  · intro sr
    refine ⟨?_, ?_, ?_⟩ <;> norm_num [channel_init]
  · intro ms mwpm c p len hm hlen hsr hpos
    unfold channel_process
    split_ifs with h1 h2
    · exact hpos
    · exact hpos
    · unfold transition_result
      dsimp only
      have hmp := manual_update_pos ms mwpm
        { c with avg_power := update_avg c p } hm hpos
      have hc0 : (0 : ℚ) < (c.count : ℚ) := by
        exact_mod_cast Nat.pos_of_ne_zero h1
      have hl0 : (0 : ℚ) < (len : ℚ) := by
        exact_mod_cast Nat.pos_of_ne_zero hlen
      split_ifs with hp
      · exact tone_end_pos ms _ _ _ hmp (mul_pos hc0 (div_pos hl0 hsr))
      · exact silence_end_pos _ _ _ hmp
  · intro w hw
    constructor
    · unfold wpm_minus
      split_ifs with h
      · linarith
      · exact hw
    · unfold wpm_plus
      linarith
  · norm_num [manual_wpm_init]

/-- Witness for C10: one preservation step from the initial state, and the
`-` key at the floor value 5 keeps the manual WPM positive. -/
theorem dit_always_positive_at :
    pos_inv (channel_process false 15 (channel_init 1) 1 1).state
    ∧ 0 < wpm_minus 5 :=
  ⟨dit_always_positive.2.1 false 15 (channel_init 1) 1 1
      (by norm_num) (by decide) (by decide!)
      ⟨by decide!, by decide!, by decide!⟩,
   (dit_always_positive.2.2.1 5 (by norm_num)).1⟩

end Morse
